import Mathlib

/-!
# Verification of the nitroshare upload/retention server (`server.js`)

A shallow embedding of the request handlers and background jobs of
`server.js` (byte sizes and timestamps are `Nat`, the uploads directory is an
association list from partition-directory names to file lists), together with
theorems settling the specification claims about them.
-/

namespace NitroShare

/-! ## Character and string helpers (models of the JS string primitives used) -/

/-- Model of JavaScript `String.prototype.toLowerCase` restricted to the ASCII
range that the server manipulates: characters `A`–`Z` map to `a`–`z`, every
other character is unchanged. -/
def jsLowerChar : Char → Char
  | 'A' => 'a' | 'B' => 'b' | 'C' => 'c' | 'D' => 'd' | 'E' => 'e' | 'F' => 'f'
  | 'G' => 'g' | 'H' => 'h' | 'I' => 'i' | 'J' => 'j' | 'K' => 'k' | 'L' => 'l'
  | 'M' => 'm' | 'N' => 'n' | 'O' => 'o' | 'P' => 'p' | 'Q' => 'q' | 'R' => 'r'
  | 'S' => 's' | 'T' => 't' | 'U' => 'u' | 'V' => 'v' | 'W' => 'w' | 'X' => 'x'
  | 'Y' => 'y' | 'Z' => 'z'
  | c => c

/-- Model of `s.toLowerCase()`. -/
def jsToLower (s : String) : String :=
  String.mk (s.data.map jsLowerChar)

/-- Model of JavaScript `String.prototype.startsWith`: `p` is a prefix of
`s`. -/
def jsStartsWith (s p : String) : Bool :=
  List.isPrefixOf p.data s.data

/-- Is `c` alphanumeric in the sense of the JS regex `[a-zA-Z0-9]`? -/
def jsAlphanum (c : Char) : Bool :=
  ('a' ≤ c && c ≤ 'z') || ('A' ≤ c && c ≤ 'Z') || ('0' ≤ c && c ≤ '9')

/-- `server.js` line 46: `userEmail.replace(/[^a-zA-Z0-9]/g, '_')` — the
filesystem-safe partition-directory name derived from an email. -/
def safeEmail (userEmail : String) : String :=
  String.mk (userEmail.data.map (fun c => if jsAlphanum c then c else '_'))

/-- One step of `extname`: walk the *reversed* character list of a basename,
accumulating the characters seen until the first `'.'`.  Mirrors Node's
`path.extname` on a plain basename: the extension runs from the last `'.'` to
the end of the string; a name without a dot, or whose only dot is the leading
character, has extension `""`. -/
def extnameRev : List Char → List Char → String
  | [], _ => ""
  | c :: rest, acc =>
    if c = '.' then (if rest.isEmpty then "" else String.mk ('.' :: acc))
    else extnameRev rest (c :: acc)

/-- Model of Node `path.extname` on a plain basename (no directory
separators occur in the names the server passes to it). -/
def extname (s : String) : String :=
  extnameRev s.data.reverse []

example : extname "clip.mp4" = ".mp4" := by decide
example : extname "clip" = "" := by decide
example : extname ".bashrc" = "" := by decide
example : extname "archive.tar.gz" = ".gz" := by decide

/-! ## The upload file filter (`videoFileFilter`, `server.js` lines 53–104) -/

/-- `server.js` line 61: the allow-listed video filename extensions. -/
def allowedExtensions : List String :=
  [".mp4", ".avi", ".mov", ".wmv", ".flv", ".webm", ".mkv", ".m4v", ".3gp"]

/-- `server.js` lines 64–78: the allow-listed MIME types (including the extra
iPhone/mobile video types). -/
def allowedMimeTypes : List String :=
  ["video/mp4", "video/avi", "video/quicktime", "video/x-msvideo",
   "video/x-flv", "video/webm", "video/x-matroska", "video/3gpp",
   "video/x-m4v", "video/mp4v-es", "video/x-mp4", "video/h264"]

/-- The multipart file metadata the filter and the storage engine look at. -/
structure UploadFile where
  originalname : String
  mimetype : String
  size : Nat
  deriving Repr, DecidableEq

/-- `server.js` line 84: the extension of the lowercased original name is
allow-listed. -/
def hasValidExtension (file : UploadFile) : Bool :=
  allowedExtensions.contains (extname (jsToLower file.originalname))

/-- `server.js` lines 87–90: MIME-type acceptance — listed MIME type, or any
`video/`-prefixed type, or `application/octet-stream` together with an
allow-listed extension. -/
def hasValidMimeType (file : UploadFile) : Bool :=
  allowedMimeTypes.contains file.mimetype ||
  jsStartsWith file.mimetype "video/" ||
  (file.mimetype == "application/octet-stream" && hasValidExtension file)

/-- `server.js` lines 92–103: the file is accepted iff it has a valid
extension or a valid MIME type. -/
def videoFileFilter (file : UploadFile) : Bool :=
  hasValidExtension file || hasValidMimeType file

/-! ## Timestamps and generated filenames (`storage.filename`, lines 112–116) -/

/-- A wall-clock instant broken into the calendar fields that
`Date.prototype.toISOString` prints (UTC).  JavaScript `Date` has millisecond
resolution, so `ms` is the finest field there is. -/
structure DateTime where
  year : Nat
  month : Nat
  day : Nat
  hour : Nat
  minute : Nat
  second : Nat
  ms : Nat
  deriving Repr, DecidableEq

/-- The decimal digit character for `n % 10`. -/
def digitChar (n : Nat) : Char :=
  Char.ofNat (48 + n % 10)

/-- Two-digit zero-padded decimal, as `toISOString` prints months, days,
hours, minutes and seconds. -/
def pad2 (n : Nat) : List Char :=
  [digitChar (n / 10), digitChar n]

/-- Three-digit zero-padded decimal, as `toISOString` prints milliseconds. -/
def pad3 (n : Nat) : List Char :=
  [digitChar (n / 100), digitChar (n / 10), digitChar n]

/-- Four-digit zero-padded decimal, as `toISOString` prints years. -/
def pad4 (n : Nat) : List Char :=
  [digitChar (n / 1000), digitChar (n / 100), digitChar (n / 10), digitChar n]

/-- The character list of `d.toISOString()`:
`YYYY-MM-DDTHH:MM:SS.mmmZ`. -/
def isoChars (d : DateTime) : List Char :=
  pad4 d.year ++ '-' :: pad2 d.month ++ '-' :: pad2 d.day ++
  'T' :: pad2 d.hour ++ ':' :: pad2 d.minute ++ ':' :: pad2 d.second ++
  '.' :: pad3 d.ms ++ ['Z']

/-- Model of `new Date().toISOString()` at instant `d`. -/
def toISOString (d : DateTime) : String :=
  String.mk (isoChars d)

/-- One character of the regex replace on line 113: `:`, `.` and `-` become
`_`. -/
def replChar (c : Char) : Char :=
  if c = ':' || c = '.' || c = '-' then '_' else c

/-- `server.js` line 113: `toISOString().replace(/[:.-]/g, '_')`. -/
def sanitizeTimestamp (s : String) : String :=
  String.mk (s.data.map replChar)

/-- `server.js` lines 112–116: the destination filename is the sanitized ISO
timestamp concatenated with `path.extname(file.originalname)` (note: the
original name is *not* lowercased here). -/
def storageFilename (now : DateTime) (originalname : String) : String :=
  sanitizeTimestamp (toISOString now) ++ extname originalname

example :
    storageFilename ⟨2025, 6, 15, 10, 30, 45, 123⟩ "clip.mp4" =
      "2025_06_15T10_30_45_123Z.mp4" := by decide

/-! ## The uploads directory (filesystem state)

The server's only mutable state is the `uploads` directory tree: one
subdirectory per partition (named `safeEmail email`), holding the uploaded
files.  We model it as an association list from directory names to the list
of files inside, a file carrying the metadata the server reads back
(`stats.birthtime` as milliseconds since the epoch, `stats.size` in bytes). -/

/-- One file on disk inside a partition directory. -/
structure Asset where
  filename : String
  birthtime : Nat
  size : Nat
  deriving Repr, DecidableEq

/-- The `uploads` tree: partition-directory name ↦ files inside. -/
abbrev FS : Type := List (String × List Asset)

/-- Does the partition directory `key` exist? -/
def dirExists (fs : FS) (key : String) : Bool :=
  fs.any (fun p => p.1 == key)

/-- The files inside partition `key` (empty for a missing directory). -/
def partFiles (fs : FS) (key : String) : List Asset :=
  match fs.find? (fun p => p.1 == key) with
  | some p => p.2
  | none => []

/-- Model of `fs.ensureDirSync` (line 48): create the directory if it is
absent, succeed silently if it already exists. -/
def ensureDir (key : String) (fs : FS) : FS :=
  if dirExists fs key then fs else fs ++ [(key, [])]

/-- Write `a` into the file list `l` at its filename: `fs.createWriteStream`
truncates an existing file of the same name, so a name clash replaces the
old file; otherwise the file is new. -/
def writeAsset (a : Asset) (l : List Asset) : List Asset :=
  if l.any (fun b => b.filename == a.filename) then
    l.map (fun b => if b.filename == a.filename then a else b)
  else l ++ [a]

/-- Write `a` into partition `key` of `fs` (the directory is assumed to have
been created by `ensureDir`). -/
def writeFile (key : String) (a : Asset) (fs : FS) : FS :=
  fs.map (fun p => if p.1 == key then (p.1, writeAsset a p.2) else p)

/-- Model of `fs.remove(filePath)`: delete `filename` from partition `key`. -/
def removeFile (key : String) (filename : String) (fs : FS) : FS :=
  fs.map (fun p =>
    if p.1 == key then (p.1, p.2.filter (fun a => !(a.filename == filename)))
    else p)

/-- Does `filename` exist inside partition `key` (`fs.existsSync` on the
joined path)? -/
def fileExists (fs : FS) (key : String) (filename : String) : Bool :=
  (partFiles fs key).any (fun a => a.filename == filename)

/-! ## Base URL (`getBaseUrl`, lines 129–137) -/

/-- The parts of the inbound HTTP request that `getBaseUrl` reads, plus the
`NODE_ENV === 'production'` flag it consults. -/
structure Request where
  xForwardedProto : Option String
  protocol : String
  host : String
  production : Bool
  deriving Repr, DecidableEq

/-- `server.js` lines 129–137: forwarded protocol first, fall back to the
request's own; force `https` in production when the immediate hop reports
`http`; append the mount prefix. -/
def getBaseUrl (req : Request) : String :=
  let protocol := req.xForwardedProto.getD req.protocol
  let finalProtocol :=
    if req.production && protocol == "http" then "https" else protocol
  finalProtocol ++ "://" ++ req.host ++ "/nitroshare"

/-! ## Authentication middleware (`authenticateToken`, lines 140–198)

The two verification paths (`client.verifyIdToken` and the introspection
`fetch`) are network calls against Google; we model the *outcome* of the two
attempts made on the presented token. -/

/-- Outcome of the external token-verification attempts, in the order the
middleware tries them: the ID-token path succeeded, or it failed and the
access-token path succeeded, or both failed. -/
inductive VerifyOutcome where
  | idOk (email : String)
  | accessOk (email : String)
  | fail
  deriving Repr, DecidableEq

/-- What the middleware needs from a request: the bearer token extracted
from the `Authorization` header (if any), the verification outcome for that
token, and the configured `ALLOWED_EMAILS` list. -/
structure AuthContext where
  token : Option String
  verify : VerifyOutcome
  allowedEmails : List String
  deriving Repr, DecidableEq

/-- Result of the middleware: either a response is sent with the given HTTP
status, or the request proceeds with `req.user.email` set. -/
inductive AuthResult where
  | reject (status : Nat)
  | grant (email : String)
  deriving Repr, DecidableEq

/-- `server.js` lines 140–198: no token → 401; both verification paths fail
→ 403; empty allow-list → 500; verified email not allow-listed → 403;
otherwise the request proceeds as that email. -/
def authenticateToken (ctx : AuthContext) : AuthResult :=
  match ctx.token with
  | none => .reject 401
  | some _ =>
    match ctx.verify with
    | .fail => .reject 403
    | .idOk email | .accessOk email =>
      if ctx.allowedEmails.isEmpty then .reject 500
      else if ctx.allowedEmails.contains email then .grant email
      else .reject 403

/-! ## Upload handler (`POST /nitroshare/api/upload`, lines 224–261)

`multer` processes the single `video` field: it runs `videoFileFilter` on
the file's metadata before anything is written; if accepted it asks the
disk-storage engine for the destination directory (`getUserDirectory`, which
`ensureDirSync`s it) and the filename, then streams the bytes subject to
`limits.fileSize = 500 * 1024 * 1024`.  Exceeding the limit aborts the stream
with `LIMIT_FILE_SIZE` and multer removes the partial file, which the handler
maps to HTTP 413; a filter rejection surfaces as a plain error, mapped to
HTTP 400; a missing file field is mapped to HTTP 400. -/

/-- `server.js` line 122: `500 * 1024 * 1024`. -/
def maxFileSize : Nat := 500 * 1024 * 1024

/-- An upload request after authentication: the caller's verified email, the
(optional) single `video` file with its metadata and eventual byte count,
and the instant the storage engine samples with `new Date()`. -/
structure UploadRequest where
  email : String
  file : Option UploadFile
  /-- the instant sampled by `new Date()` in the filename callback -/
  now : DateTime
  /-- the same instant in epoch milliseconds — the `birthtime` the kernel
  stamps on the file being created -/
  nowMs : Nat
  deriving Repr, DecidableEq

/-- The upload pipeline of lines 224–261: returns the HTTP status of the
response and the resulting uploads tree. -/
def handleUpload (fs : FS) (req : UploadRequest) : Nat × FS :=
  match req.file with
  | none => (400, fs)
  | some file =>
    if videoFileFilter file then
      let key := safeEmail req.email
      let fs₁ := ensureDir key fs
      if file.size > maxFileSize then
        (413, fs₁)
      else
        let filename := storageFilename req.now file.originalname
        (200, writeFile key ⟨filename, req.nowMs, file.size⟩ fs₁)
    else (400, fs)

/-! ## Catalog handler (`GET /nitroshare/api/videos`, lines 263–293) -/

/-- One element of the JSON array the catalog returns. -/
structure VideoSummary where
  filename : String
  uploadTime : Nat
  size : Nat
  videoUrl : String
  shareUrl : String
  deriving Repr, DecidableEq

/-- Lines 274–277: keep a directory entry when the lowercased extension is in
the allow-list. -/
def catalogExtOk (filename : String) : Bool :=
  allowedExtensions.contains (jsToLower (extname filename))

/-- Lines 278–288: the summary built for one file. -/
def mkSummary (baseUrl : String) (key : String) (a : Asset) : VideoSummary :=
  { filename := a.filename
    uploadTime := a.birthtime
    size := a.size
    videoUrl := baseUrl ++ "/uploads/" ++ key ++ "/" ++ a.filename
    shareUrl := baseUrl ++ "/share/" ++ key ++ "/" ++ a.filename }

/-- Line 289's comparator `(a, b) => new Date(b.uploadTime) - new Date(a.uploadTime)`
sorts the array into descending upload time. -/
def byUploadTimeDesc (a b : VideoSummary) : Bool :=
  b.uploadTime ≤ a.uploadTime

/-- Lines 273–289: filter on extension, build summaries, sort most recent
first. -/
def catalogList (baseUrl : String) (key : String) (files : List Asset) :
    List VideoSummary :=
  (((files.filter (fun f => catalogExtOk f.filename)).map
      (mkSummary baseUrl key)).mergeSort byUploadTimeDesc)

/-- The catalog endpoint: `getUserDirectory` ensures the partition directory
exists, then the directory listing is filtered, decorated and sorted.
Returns the HTTP status, the resulting tree and the JSON array. -/
def handleListVideos (fs : FS) (email : String) (req : Request) :
    Nat × FS × List VideoSummary :=
  let key := safeEmail email
  let fs₁ := ensureDir key fs
  (200, fs₁, catalogList (getBaseUrl req) key (partFiles fs₁ key))

/-! ## Delete handler (`DELETE /nitroshare/api/videos/:filename`,
lines 430–445) -/

/-- `getUserDirectory` ensures the partition directory, then a missing file
is 404 and an existing file is removed. -/
def handleDeleteVideo (fs : FS) (email : String) (filename : String) :
    Nat × FS :=
  let key := safeEmail email
  let fs₁ := ensureDir key fs
  if fileExists fs₁ key filename then (200, removeFile key filename fs₁)
  else (404, fs₁)

/-! ## Share page (`GET /nitroshare/share/:userEmail/:filename`,
lines 295–427)

The HTML template of lines 308–424, transcribed chunk by chunk with the
template interpolations turned into concatenations (`\x7b`/`\x7d` denote the
literal braces of the embedded CSS/JS, `\x27` the literal single quotes). -/

/-- Lines 304–306: the two URLs interpolated into the page. -/
def directVideoUrl (baseUrl userEmail filename : String) : String :=
  baseUrl ++ "/uploads/" ++ userEmail ++ "/" ++ filename

/-- Line 306: the share URL interpolated into the page. -/
def sharePageUrl (baseUrl userEmail filename : String) : String :=
  baseUrl ++ "/share/" ++ userEmail ++ "/" ++ filename

/-- Line 321 of the template: the Open Graph video tag. -/
def ogVideoTag (videoUrl : String) : String :=
  "<meta property=\"og:video\" content=\"" ++ videoUrl ++ "\">"

/-- Lines 308–424: the share page document. -/
def sharePageHtml (baseUrl userEmail filename : String) : String :=
  let videoUrl := directVideoUrl baseUrl userEmail filename
  let shareUrl := sharePageUrl baseUrl userEmail filename
  "\n<!DOCTYPE html>\n<html lang=\"en\">\n<head>\n    <meta charset=\"UTF-8\">\n    <meta name=\"viewport\" content=\"width=device-width, initial-scale=1.0\">\n    <title>Shared Video - " ++ filename ++
  "</title>\n    \n    <!-- Open Graph Meta Tags for Facebook, LinkedIn, etc. -->\n    <meta property=\"og:title\" content=\"Shared Video - " ++ filename ++
  "\">\n    <meta property=\"og:description\" content=\"Watch this shared video\">\n    <meta property=\"og:type\" content=\"video.other\">\n    <meta property=\"og:url\" content=\"" ++ shareUrl ++
  "\">\n    " ++ ogVideoTag videoUrl ++
  "\n    <meta property=\"og:video:secure_url\" content=\"" ++ videoUrl ++
  "\">\n    <meta property=\"og:video:type\" content=\"video/mp4\">\n    <meta property=\"og:video:width\" content=\"1280\">\n    <meta property=\"og:video:height\" content=\"720\">\n    \n    <!-- Twitter Card Meta Tags -->\n    <meta name=\"twitter:card\" content=\"player\">\n    <meta name=\"twitter:title\" content=\"Shared Video - " ++ filename ++
  "\">\n    <meta name=\"twitter:description\" content=\"Watch this shared video\">\n    <meta name=\"twitter:player\" content=\"" ++ shareUrl ++
  "\">\n    <meta name=\"twitter:player:width\" content=\"1280\">\n    <meta name=\"twitter:player:height\" content=\"720\">\n    \n    <!-- Discord and other platforms -->\n    <meta name=\"theme-color\" content=\"#7289DA\">\n    \n    <style>\n        body \x7b\n            margin: 0;\n            padding: 20px;\n            font-family: Arial, sans-serif;\n            background-color: #f0f0f0;\n        \x7d\n        .container \x7b\n            max-width: 1200px;\n            margin: 0 auto;\n            background: white;\n            border-radius: 8px;\n            padding: 20px;\n            box-shadow: 0 2px 10px rgba(0,0,0,0.1);\n        \x7d\n        .video-container \x7b\n            position: relative;\n            width: 100%;\n            padding-bottom: 56.25%; /* 16:9 aspect ratio */\n            height: 0;\n            margin-bottom: 20px;\n        \x7d\n        video \x7b\n            position: absolute;\n            top: 0;\n            left: 0;\n            width: 100%;\n            height: 100%;\n            border-radius: 4px;\n        \x7d\n        .info \x7b\n            color: #666;\n            font-size: 14px;\n        \x7d\n        .share-buttons \x7b\n            margin-top: 20px;\n        \x7d\n        .share-button \x7b\n            display: inline-block;\n            margin-right: 10px;\n            padding: 8px 16px;\n            background: #007bff;\n            color: white;\n            text-decoration: none;\n            border-radius: 4px;\n            font-size: 14px;\n        \x7d\n        .share-button:hover \x7b\n            background: #0056b3;\n        \x7d\n        @media (max-width: 768px) \x7b\n            body \x7b\n                padding: 10px;\n            \x7d\n            .container \x7b\n                padding: 15px;\n            \x7d\n        \x7d\n    </style>\n</head>\n<body>\n    <div class=\"container\">\n        <h1>Shared Video</h1>\n        <div class=\"video-container\">\n            <video controls preload=\"metadata\">\n                <source src=\"" ++ videoUrl ++
  "\" type=\"video/mp4\">\n                Your browser does not support the video tag.\n            </video>\n        </div>\n        <div class=\"info\">\n            <p><strong>Filename:</strong> " ++ filename ++
  "</p>\n            <p><strong>Direct Link:</strong> <a href=\"" ++ videoUrl ++
  "\" target=\"_blank\">" ++ videoUrl ++
  "</a></p>\n        </div>\n        <div class=\"share-buttons\">\n            <button onclick=\"copyToClipboard(\x27" ++ shareUrl ++
  "\x27)\" class=\"share-button\">Copy Link</button>\n        </div>\n    </div>\n    \n    <script>\n        function copyToClipboard(text) \x7b\n            navigator.clipboard.writeText(text).then(function() \x7b\n                alert(\x27Link copied to clipboard!\x27);\n            \x7d);\n        \x7d\n    </script>\n</body>\n</html>"

/-- Lines 295–427: 404 when the file is missing on disk, otherwise the
rendered page (no authentication). -/
def handleSharePage (fs : FS) (req : Request) (userEmail filename : String) :
    Nat × String :=
  if fileExists fs userEmail filename then
    (200, sharePageHtml (getBaseUrl req) userEmail filename)
  else (404, "Video not found")

/-! ## Retention sweep (`cron.schedule` job, lines 448–498) -/

/-- Line 452: `new Date(Date.now() - 24 * 60 * 60 * 1000)` in epoch
milliseconds (`Nat` subtraction truncates at 0, matching a clock that starts
at the epoch). -/
def oneDayAgo (nowMs : Nat) : Nat :=
  nowMs - 24 * 60 * 60 * 1000

/-- Lines 474–493: within one partition directory, delete every file whose
`birthtime` is strictly before the cutoff, keep the rest. -/
def sweepPartition (cutoff : Nat) (files : List Asset) : List Asset :=
  files.filter (fun a => !(a.birthtime < cutoff))

/-- Lines 448–498: the cleanup job walks every partition directory of the
uploads tree and deletes the expired files; the directories themselves are
never deleted. -/
def sweep (nowMs : Nat) (fs : FS) : FS :=
  fs.map (fun p => (p.1, sweepPartition (oneDayAgo nowMs) p.2))

/-! ## Spec-side definition for the refinement claim about the file filter -/

/-- Modelled from the spec's validation sentence, for comparison with
`videoFileFilter`: "Extension derived from the original filename must be in
the allow-listed set ... **or** the declared content type starts with the
video media-type prefix **or** (content type is the generic binary fallback
AND extension is allow-listed)". -/
def specAcceptsUpload (file : UploadFile) : Bool :=
  allowedExtensions.contains (extname (jsToLower file.originalname)) ||
  jsStartsWith file.mimetype "video/" ||
  (file.mimetype == "application/octet-stream" &&
    allowedExtensions.contains (extname (jsToLower file.originalname)))

/-! ## Basic lemmas about the uploads-tree operations -/

theorem partFiles_nil (k : String) : partFiles [] k = [] := rfl

theorem partFiles_cons (k' : String) (l : List Asset) (fs : FS) (k : String) :
    partFiles ((k', l) :: fs) k = if k' == k then l else partFiles fs k := by
  by_cases h : k' == k <;> simp [partFiles, List.find?_cons, h]

/-- `ensureDir` does not change the contents of any partition. -/
theorem partFiles_ensureDir (key : String) (fs : FS) (k : String) :
    partFiles (ensureDir key fs) k = partFiles fs k := by
  unfold ensureDir
  split
  · rfl
  · rename_i h
    simp only [dirExists, List.any_eq_true, beq_iff_eq] at h
    push_neg at h
    unfold partFiles
    rw [List.find?_append]
    by_cases hk : key = k
    · subst hk
      have : fs.find? (fun p => p.1 == key) = none :=
        List.find?_eq_none.mpr (fun p hp => by simpa using h p hp)
      simp [this]
    · have : ([((key : String), ([] : List Asset))].find?
          (fun p => p.1 == k)) = none := by
        simp [List.find?_cons, hk]
      rw [this]
      cases fs.find? (fun p => p.1 == k) <;> rfl

/-- After `ensureDir key`, the directory `key` exists. -/
theorem dirExists_ensureDir_self (key : String) (fs : FS) :
    dirExists (ensureDir key fs) key = true := by
  unfold ensureDir
  split
  · assumption
  · simp [dirExists]

/-- `ensureDir` keeps every directory that already existed. -/
theorem dirExists_ensureDir (key : String) (fs : FS) (k : String)
    (h : dirExists fs k = true) : dirExists (ensureDir key fs) k = true := by
  unfold ensureDir
  split
  · exact h
  · simp only [dirExists, List.any_eq_true] at h ⊢
    obtain ⟨p, hp, hk⟩ := h
    exact ⟨p, List.mem_append_left _ hp, hk⟩

/-- Membership after `writeAsset`: every member of the new list is the
written asset or an old member. -/
theorem mem_writeAsset (a b : Asset) (l : List Asset)
    (h : b ∈ writeAsset a l) : b = a ∨ b ∈ l := by
  unfold writeAsset at h
  split at h
  · obtain ⟨c, hc, hcb⟩ := List.mem_map.mp h
    by_cases hcf : c.filename == a.filename
    · simp only [hcf, if_pos rfl] at hcb
      exact Or.inl hcb.symm
    · rw [if_neg (by simp_all)] at hcb
      exact Or.inr (hcb ▸ hc)
  · rcases List.mem_append.mp h with h | h
    · exact Or.inr h
    · simp at h
      exact Or.inl h

/-- Writing a fresh filename into a partition appends it: no existing asset
is overwritten. -/
theorem writeAsset_fresh (a : Asset) (l : List Asset)
    (h : ∀ b ∈ l, b.filename ≠ a.filename) : writeAsset a l = l ++ [a] := by
  unfold writeAsset
  rw [if_neg]
  simp only [List.any_eq_true, beq_iff_eq, not_exists, not_and]
  intro b hb
  exact h b hb

/-- Contents of the written partition after `writeFile`, when the directory
exists (the upload pipeline always calls `ensureDir` first). -/
theorem partFiles_writeFile_self (key : String) (a : Asset) (fs : FS)
    (h : dirExists fs key = true) :
    partFiles (writeFile key a fs) key = writeAsset a (partFiles fs key) := by
  induction fs with
  | nil => simp [dirExists] at h
  | cons p fs ih =>
    obtain ⟨k', l⟩ := p
    by_cases hk : k' == key
    · simp only [writeFile, List.map_cons, if_pos hk]
      rw [partFiles_cons, partFiles_cons, if_pos hk, if_pos hk]
    · simp only [writeFile, List.map_cons, if_neg hk]
      rw [partFiles_cons, partFiles_cons, if_neg hk, if_neg hk]
      simp only [dirExists, List.any_cons, Bool.or_eq_true] at h
      rcases h with h | h
      · exact absurd h hk
      · exact ih h

/-- Membership after `writeFile`, over any key: a member is the written
asset or was already there. -/
theorem mem_partFiles_writeFile (key : String) (a : Asset) (fs : FS)
    (k : String) (b : Asset) (h : b ∈ partFiles (writeFile key a fs) k) :
    b = a ∨ b ∈ partFiles fs k := by
  induction fs with
  | nil => simp [writeFile, partFiles_nil] at h
  | cons p fs ih =>
    obtain ⟨k', l⟩ := p
    by_cases hk : k' == key
    · simp only [writeFile, List.map_cons, if_pos hk] at h
      rw [partFiles_cons] at h
      rw [partFiles_cons]
      by_cases hkk : k' == k
      · rw [if_pos hkk] at h
        rw [if_pos hkk]
        exact mem_writeAsset a b l h
      · rw [if_neg hkk] at h
        rw [if_neg hkk]
        exact ih h
    · simp only [writeFile, List.map_cons, if_neg hk] at h
      rw [partFiles_cons] at h
      rw [partFiles_cons]
      by_cases hkk : k' == k
      · rw [if_pos hkk] at h
        rw [if_pos hkk]
        exact Or.inr h
      · rw [if_neg hkk] at h
        rw [if_neg hkk]
        exact ih h

/-- Contents of the targeted partition after `removeFile`. -/
theorem partFiles_removeFile_self (key fn : String) (fs : FS) :
    partFiles (removeFile key fn fs) key =
      (partFiles fs key).filter (fun a => !(a.filename == fn)) := by
  induction fs with
  | nil => simp [removeFile, partFiles_nil]
  | cons p fs ih =>
    obtain ⟨k', l⟩ := p
    by_cases hk : k' == key
    · simp only [removeFile, List.map_cons, if_pos hk]
      rw [partFiles_cons, partFiles_cons, if_pos hk, if_pos hk]
    · simp only [removeFile, List.map_cons, if_neg hk]
      rw [partFiles_cons, partFiles_cons, if_neg hk, if_neg hk]
      exact ih

/-- `removeFile` never adds assets anywhere. -/
theorem mem_partFiles_removeFile (key fn : String) (fs : FS) (k : String)
    (b : Asset) (h : b ∈ partFiles (removeFile key fn fs) k) :
    b ∈ partFiles fs k := by
  induction fs with
  | nil => simp [removeFile, partFiles_nil] at h
  | cons p fs ih =>
    obtain ⟨k', l⟩ := p
    by_cases hk : k' == key
    · simp only [removeFile, List.map_cons, if_pos hk] at h
      rw [partFiles_cons] at h
      rw [partFiles_cons]
      by_cases hkk : k' == k
      · rw [if_pos hkk] at h
        rw [if_pos hkk]
        exact (List.mem_filter.mp h).1
      · rw [if_neg hkk] at h
        rw [if_neg hkk]
        exact ih h
    · simp only [removeFile, List.map_cons, if_neg hk] at h
      rw [partFiles_cons] at h
      rw [partFiles_cons]
      by_cases hkk : k' == k
      · rw [if_pos hkk] at h
        rw [if_pos hkk]
        exact h
      · rw [if_neg hkk] at h
        rw [if_neg hkk]
        exact ih h

/-- One sweep, seen through any partition: it filters that partition with
the retention predicate. -/
theorem partFiles_sweep (nowMs : Nat) (fs : FS) (k : String) :
    partFiles (sweep nowMs fs) k =
      sweepPartition (oneDayAgo nowMs) (partFiles fs k) := by
  induction fs with
  | nil => simp [sweep, partFiles_nil, sweepPartition]
  | cons p fs ih =>
    obtain ⟨k', l⟩ := p
    simp only [sweep, List.map_cons] at ih ⊢
    rw [partFiles_cons, partFiles_cons]
    by_cases hk : k' == k
    · rw [if_pos hk, if_pos hk]
    · rw [if_neg hk, if_neg hk]
      exact ih

/-! ## Claim C1 — status of a token failing both verification paths -/

/-- C1, counterexample: the claim says a request whose bearer token fails
both verification paths is rejected with HTTP 401, the same status as a
request with no token.  In `authenticateToken` (lines 172–175) the double
failure is answered with `res.sendStatus(403)`, while only the missing-token
case (line 145) yields 401: at a concrete request the two statuses differ. -/
theorem auth_both_fail_status_counterexample :
    authenticateToken ⟨some "opaque-token", .fail, ["alice@example.com"]⟩ =
      .reject 403 ∧
    authenticateToken ⟨none, .fail, ["alice@example.com"]⟩ = .reject 401 ∧
    (403 : Nat) ≠ 401 := by
  refine ⟨rfl, rfl, by decide⟩

/-- C1, amended: for every request carrying a bearer token for which both
verification paths fail, the request is rejected with HTTP **403**, whereas
a request carrying no token at all is rejected with HTTP 401. -/
theorem auth_both_fail_status (t : String) (emails : List String)
    (v : VerifyOutcome) :
    authenticateToken ⟨some t, .fail, emails⟩ = .reject 403 ∧
    authenticateToken ⟨none, v, emails⟩ = .reject 401 :=
  ⟨rfl, rfl⟩

/-! ## Claim C4 — the retention sweep -/

/-- C4: one run of the retention sweep deletes, in every partition, exactly
the files whose creation time is strictly older than `now` minus the 24-hour
retention window, leaves every younger file untouched, never touches the
partition directories themselves, and an immediately repeated sweep (same
`now`) is a no-op. -/
theorem sweep_removes_exactly_expired (nowMs : Nat) (fs : FS) :
    (∀ k a, a ∈ partFiles (sweep nowMs fs) k ↔
      a ∈ partFiles fs k ∧ ¬ a.birthtime < oneDayAgo nowMs) ∧
    (sweep nowMs fs).map Prod.fst = fs.map Prod.fst ∧
    sweep nowMs (sweep nowMs fs) = sweep nowMs fs := by
  refine ⟨?_, ?_, ?_⟩
  · intro k a
    rw [partFiles_sweep]
    simp [sweepPartition, List.mem_filter]
  · simp [sweep, List.map_map, Function.comp_def]
  · have hidem : ∀ l, sweepPartition (oneDayAgo nowMs)
        (sweepPartition (oneDayAgo nowMs) l) =
          sweepPartition (oneDayAgo nowMs) l := by
      intro l
      unfold sweepPartition
      rw [List.filter_filter]
      simp only [Bool.and_self]
    unfold sweep
    rw [List.map_map]
    simp only [Function.comp_def, hidem]

/-! ## Claim C2 — the upload type validation -/

/-- Every explicitly listed MIME type starts with `video/`, which is why the
explicit list adds nothing to the acceptance condition. -/
theorem allowedMimeTypes_startsWith (m : String)
    (h : allowedMimeTypes.contains m = true) :
    jsStartsWith m "video/" = true := by
  simp only [allowedMimeTypes, List.contains_cons, List.contains_nil,
    Bool.or_eq_true, beq_iff_eq] at h
  rcases h with h | h | h | h | h | h | h | h | h | h | h | h | h
  all_goals first
  | (subst h; decide)
  | exact Bool.noConfusion h

/-- C2: a file is accepted by the upload filter iff the spec's condition
holds — the extension of the lowercased original filename is allow-listed,
or the declared content type starts with `video/`, or the content type is
`application/octet-stream` and the extension is allow-listed; and when that
condition fails the upload responds 400 and the uploads tree is unchanged
(no file is written). -/
theorem upload_filter_iff_spec (file : UploadFile) (fs : FS) (email : String)
    (d : DateTime) (ms : Nat) :
    (videoFileFilter file = true ↔ specAcceptsUpload file = true) ∧
    (specAcceptsUpload file = false →
      handleUpload fs ⟨email, some file, d, ms⟩ = (400, fs)) := by
  have hiff : videoFileFilter file = true ↔ specAcceptsUpload file = true := by
    unfold videoFileFilter hasValidMimeType specAcceptsUpload hasValidExtension
    constructor
    · intro h
      simp only [Bool.or_eq_true, Bool.and_eq_true] at h ⊢
      rcases h with hE | ((hM1 | hM2) | hM3)
      · exact Or.inl (Or.inl hE)
      · exact Or.inl (Or.inr (allowedMimeTypes_startsWith _ hM1))
      · exact Or.inl (Or.inr hM2)
      · exact Or.inr hM3
    · intro h
      simp only [Bool.or_eq_true, Bool.and_eq_true] at h ⊢
      rcases h with (hE | hS) | hO
      · exact Or.inl hE
      · exact Or.inr (Or.inl (Or.inr hS))
      · exact Or.inr (Or.inr hO)
  refine ⟨hiff, fun hspec => ?_⟩
  have hvf : videoFileFilter file = false := by
    cases hv : videoFileFilter file
    · rfl
    · rw [hiff.mp hv] at hspec
      exact absurd hspec (by decide)
  simp [handleUpload, hvf]

/-- C2 witness: a concrete non-video file (`notes.txt`, `text/plain`) is
rejected with 400 and the uploads tree stays empty. -/
theorem upload_filter_iff_spec_witness :
    handleUpload []
      ⟨"alice@example.com", some ⟨"notes.txt", "text/plain", 4⟩,
        ⟨2025, 6, 15, 10, 30, 45, 123⟩, 0⟩ = (400, []) :=
  (upload_filter_iff_spec ⟨"notes.txt", "text/plain", 4⟩ []
    "alice@example.com" ⟨2025, 6, 15, 10, 30, 45, 123⟩ 0).2 (by decide)

/-! ## Claim C3 — the 500 MiB size ceiling -/

/-- C3: when a file that passed the type filter streams more bytes than the
configured ceiling, multer aborts with `LIMIT_FILE_SIZE` (a filter-rejected
file is never streamed at all, so only admitted files reach the ceiling),
the handler responds 413, and every partition of the uploads tree — in
particular the caller's — holds exactly the files it held before: no
partial file remains. -/
theorem upload_over_limit_413 (fs : FS) (email : String) (d : DateTime)
    (ms : Nat) (file : UploadFile) (hfilt : videoFileFilter file = true)
    (hsize : maxFileSize < file.size) :
    handleUpload fs ⟨email, some file, d, ms⟩ =
      (413, ensureDir (safeEmail email) fs) ∧
    ∀ k, partFiles (ensureDir (safeEmail email) fs) k = partFiles fs k := by
  constructor
  · simp [handleUpload, hfilt, hsize]
  · intro k
    exact partFiles_ensureDir _ fs k

/-- C3 witness: a 600 MiB `clip.mp4` uploaded into an empty tree is answered
with 413 and alice's partition (like every other) is left with no files. -/
theorem upload_over_limit_413_witness :
    handleUpload []
        ⟨"alice@example.com", some ⟨"clip.mp4", "video/mp4", 600 * 1024 * 1024⟩,
          ⟨2025, 6, 15, 10, 30, 45, 123⟩, 1750000245123⟩ =
      (413, ensureDir (safeEmail "alice@example.com") []) ∧
    partFiles (ensureDir (safeEmail "alice@example.com") [])
      (safeEmail "alice@example.com") = partFiles [] (safeEmail "alice@example.com") := by
  have h := upload_over_limit_413 [] "alice@example.com"
    ⟨2025, 6, 15, 10, 30, 45, 123⟩ 1750000245123
    ⟨"clip.mp4", "video/mp4", 600 * 1024 * 1024⟩ (by decide) (by decide)
  exact ⟨h.1, h.2 (safeEmail "alice@example.com")⟩

/-! ## Claim C5 — filename disambiguation within one second -/

theorem data_mk (l : List Char) : (String.mk l).data = l := rfl

/-- Digit characters are untouched by the `[:.-] → _` substitution. -/
theorem replChar_digitChar (n : Nat) : replChar (digitChar n) = digitChar n := by
  unfold digitChar
  have h : n % 10 < 10 := Nat.mod_lt _ (by decide)
  generalize n % 10 = m at h ⊢
  interval_cases m <;> decide

/-- `digitChar` determines its argument modulo 10. -/
theorem digitChar_inj {a b : Nat} (h : digitChar a = digitChar b) :
    a % 10 = b % 10 := by
  unfold digitChar at h
  have ha : a % 10 < 10 := Nat.mod_lt _ (by decide)
  have hb : b % 10 < 10 := Nat.mod_lt _ (by decide)
  generalize a % 10 = x at h ha ⊢
  generalize b % 10 = y at h hb ⊢
  interval_cases x <;> interval_cases y <;>
    first | rfl | exact absurd h (by decide)

/-- The ISO string up to and including the dot before the milliseconds. -/
def isoPre (d : DateTime) : List Char :=
  pad4 d.year ++ '-' :: pad2 d.month ++ '-' :: pad2 d.day ++
  'T' :: pad2 d.hour ++ ':' :: pad2 d.minute ++ ':' :: pad2 d.second ++ ['.']

theorem isoChars_decomp (d : DateTime) :
    isoChars d = isoPre d ++ pad3 d.ms ++ ['Z'] := by
  simp [isoChars, isoPre, List.append_assoc]

theorem isoChars_length (d : DateTime) : (isoChars d).length = 24 := by
  simp [isoChars, pad4, pad2, pad3]

/-- C5, amended: two uploads by the same user within the same wall-clock
second but in *different milliseconds* (`toISOString` prints milliseconds)
receive distinct destination filenames — whatever the original extensions —
and writing the two files leaves two distinct assets in the partition,
neither overwriting the other.  (Two uploads hitting the same millisecond
collide; see the counterexample.) -/
theorem upload_same_second_distinct_filenames (d₁ d₂ : DateTime)
    (n₁ n₂ : String) (hy : d₁.year = d₂.year) (hmo : d₁.month = d₂.month)
    (hd : d₁.day = d₂.day) (hh : d₁.hour = d₂.hour)
    (hmi : d₁.minute = d₂.minute) (hs : d₁.second = d₂.second)
    (h₁ : d₁.ms < 1000) (h₂ : d₂.ms < 1000) (hne : d₁.ms ≠ d₂.ms) :
    storageFilename d₁ n₁ ≠ storageFilename d₂ n₂ ∧
    ∀ t₁ t₂ sz₁ sz₂ : Nat,
      writeAsset ⟨storageFilename d₂ n₂, t₂, sz₂⟩
        (writeAsset ⟨storageFilename d₁ n₁, t₁, sz₁⟩ []) =
      [⟨storageFilename d₁ n₁, t₁, sz₁⟩, ⟨storageFilename d₂ n₂, t₂, sz₂⟩] := by
  have hneq : storageFilename d₁ n₁ ≠ storageFilename d₂ n₂ := by
    intro heq
    have hdata : (isoChars d₁).map replChar ++ (extname n₁).data =
        (isoChars d₂).map replChar ++ (extname n₂).data := by
      have h := congrArg String.data heq
      simpa [storageFilename, sanitizeTimestamp, toISOString, data_mk,
        String.data_append] using h
    have hlen : ((isoChars d₁).map replChar).length =
        ((isoChars d₂).map replChar).length := by
      simp [isoChars_length]
    have hpre : (isoChars d₁).map replChar = (isoChars d₂).map replChar :=
      List.append_inj_left hdata hlen
    have hP : isoPre d₁ = isoPre d₂ := by
      unfold isoPre
      rw [hy, hmo, hd, hh, hmi, hs]
    rw [isoChars_decomp, isoChars_decomp, hP] at hpre
    simp only [List.map_append] at hpre
    have hp3 : (pad3 d₁.ms).map replChar = (pad3 d₂.ms).map replChar :=
      List.append_cancel_left (List.append_cancel_right hpre)
    simp only [pad3, List.map_cons, List.map_nil, replChar_digitChar,
      List.cons.injEq, and_true] at hp3
    obtain ⟨e1, e2, e3⟩ := hp3
    have g1 := digitChar_inj e1
    have g2 := digitChar_inj e2
    have g3 := digitChar_inj e3
    omega
  refine ⟨hneq, fun t₁ t₂ sz₁ sz₂ => ?_⟩
  simp [writeAsset, beq_iff_eq, hneq]

/-- C5 witness: uploads at `…45.123Z` and `…45.124Z` (same second, different
milliseconds) get distinct filenames and coexist in the partition. -/
theorem upload_same_second_distinct_filenames_witness :
    storageFilename ⟨2025, 6, 15, 10, 30, 45, 123⟩ "a.mp4" ≠
      storageFilename ⟨2025, 6, 15, 10, 30, 45, 124⟩ "b.mp4" ∧
    writeAsset ⟨storageFilename ⟨2025, 6, 15, 10, 30, 45, 124⟩ "b.mp4", 7, 222⟩
        (writeAsset
          ⟨storageFilename ⟨2025, 6, 15, 10, 30, 45, 123⟩ "a.mp4", 7, 111⟩ []) =
      [⟨storageFilename ⟨2025, 6, 15, 10, 30, 45, 123⟩ "a.mp4", 7, 111⟩,
       ⟨storageFilename ⟨2025, 6, 15, 10, 30, 45, 124⟩ "b.mp4", 7, 222⟩] := by
  have h := upload_same_second_distinct_filenames
    ⟨2025, 6, 15, 10, 30, 45, 123⟩ ⟨2025, 6, 15, 10, 30, 45, 124⟩
    "a.mp4" "b.mp4" rfl rfl rfl rfl rfl rfl (by decide) (by decide) (by decide)
  exact ⟨h.1, h.2 7 7 111 222⟩

/-- C5, counterexample: the claim as stated quantifies over *any* two
uploads in the same wall-clock second.  JavaScript `Date` has only
millisecond resolution, so two uploads processed in the same millisecond
sample identical timestamps: the generated filenames coincide (even for
different original names) and the second write overwrites the first —
afterwards the partition holds a single asset, not two. -/
theorem upload_same_second_collision_counterexample :
    storageFilename ⟨2025, 6, 15, 10, 30, 45, 123⟩ "a.mp4" =
      storageFilename ⟨2025, 6, 15, 10, 30, 45, 123⟩ "b.mp4" ∧
    writeAsset ⟨storageFilename ⟨2025, 6, 15, 10, 30, 45, 123⟩ "b.mp4", 7, 222⟩
        (writeAsset
          ⟨storageFilename ⟨2025, 6, 15, 10, 30, 45, 123⟩ "a.mp4", 7, 111⟩ []) =
      [⟨storageFilename ⟨2025, 6, 15, 10, 30, 45, 123⟩ "b.mp4", 7, 222⟩] := by
  decide

/-! ## Claim C7 — the catalog listing -/

theorem byUploadTimeDesc_trans (a b c : VideoSummary)
    (h₁ : byUploadTimeDesc a b) (h₂ : byUploadTimeDesc b c) :
    byUploadTimeDesc a c = true := by
  simp only [byUploadTimeDesc, decide_eq_true_eq] at *
  omega

theorem byUploadTimeDesc_total (a b : VideoSummary) :
    (byUploadTimeDesc a b || byUploadTimeDesc b a) = true := by
  simp only [byUploadTimeDesc, Bool.or_eq_true, decide_eq_true_eq]
  omega

/-- C7: the catalog endpoint answers 200 with exactly the partition's
entries whose (lowercased) extension is allow-listed — as summaries carrying
the file's size and creation time — arranged pairwise in descending
creation-time order; an empty partition yields the empty list, not an
error. -/
theorem catalog_filtered_sorted (fs : FS) (email : String) (req : Request) :
    (handleListVideos fs email req).1 = 200 ∧
    ((handleListVideos fs email req).2.2).Perm
      (((partFiles fs (safeEmail email)).filter
          (fun f => catalogExtOk f.filename)).map
        (mkSummary (getBaseUrl req) (safeEmail email))) ∧
    ((handleListVideos fs email req).2.2).Pairwise
      (fun a b => b.uploadTime ≤ a.uploadTime) ∧
    (partFiles fs (safeEmail email) = [] →
      (handleListVideos fs email req).2.2 = []) := by
  refine ⟨rfl, ?_, ?_, ?_⟩
  · simp only [handleListVideos, catalogList]
    rw [partFiles_ensureDir]
    exact List.mergeSort_perm _ _
  · simp only [handleListVideos, catalogList]
    have h := List.sorted_mergeSort byUploadTimeDesc_trans byUploadTimeDesc_total
      (((partFiles (ensureDir (safeEmail email) fs) (safeEmail email)).filter
          (fun f => catalogExtOk f.filename)).map
        (mkSummary (getBaseUrl req) (safeEmail email)))
    exact h.imp (fun hab => by
      simpa [byUploadTimeDesc, decide_eq_true_eq] using hab)
  · intro h
    simp only [handleListVideos, catalogList]
    rw [partFiles_ensureDir, h]
    simp

/-- C7 witness: for a principal with no partition the endpoint returns the
empty list. -/
theorem catalog_filtered_sorted_witness :
    (handleListVideos [] "alice@example.com"
      ⟨none, "http", "example.com", false⟩).2.2 = [] :=
  (catalog_filtered_sorted [] "alice@example.com"
    ⟨none, "http", "example.com", false⟩).2.2.2 rfl

/-! ## Claim C9 — deleting one's own asset -/

/-- C9: deleting a filename that is not in the caller's partition answers
404 and changes no partition's contents; deleting an existing filename
answers 200 and the filename no longer appears in any subsequent catalog
listing of that caller. -/
theorem delete_miss_404_hit_removes (fs : FS) (email filename : String) :
    (fileExists fs (safeEmail email) filename = false →
      handleDeleteVideo fs email filename =
        (404, ensureDir (safeEmail email) fs) ∧
      ∀ k, partFiles (ensureDir (safeEmail email) fs) k = partFiles fs k) ∧
    (fileExists fs (safeEmail email) filename = true →
      (handleDeleteVideo fs email filename).1 = 200 ∧
      ∀ (req : Request) (s : VideoSummary),
        s ∈ (handleListVideos (handleDeleteVideo fs email filename).2
              email req).2.2 →
        s.filename ≠ filename) := by
  have hfe : fileExists (ensureDir (safeEmail email) fs) (safeEmail email)
      filename = fileExists fs (safeEmail email) filename := by
    unfold fileExists
    rw [partFiles_ensureDir]
  constructor
  · intro h
    refine ⟨?_, fun k => partFiles_ensureDir _ _ _⟩
    simp [handleDeleteVideo, hfe, h]
  · intro h
    have hstate : (handleDeleteVideo fs email filename).2 =
        removeFile (safeEmail email) filename (ensureDir (safeEmail email) fs) := by
      simp [handleDeleteVideo, hfe, h]
    refine ⟨by simp [handleDeleteVideo, hfe, h], ?_⟩
    intro req s hs
    rw [hstate] at hs
    simp only [handleListVideos, catalogList, List.mem_mergeSort] at hs
    obtain ⟨a, ha, rfl⟩ := List.mem_map.mp hs
    have ha' := (List.mem_filter.mp ha).1
    rw [partFiles_ensureDir, partFiles_removeFile_self] at ha'
    have hne := (List.mem_filter.mp ha').2
    simp only [Bool.not_eq_true', beq_eq_false_iff_ne] at hne
    simpa [mkSummary] using hne

/-- C9 witness: deleting the one existing file `v.mp4` answers 200. -/
theorem delete_miss_404_hit_removes_witness :
    (handleDeleteVideo [("alice_example_com", [⟨"v.mp4", 10, 5⟩])]
      "alice@example.com" "v.mp4").1 = 200 :=
  ((delete_miss_404_hit_removes [("alice_example_com", [⟨"v.mp4", 10, 5⟩])]
    "alice@example.com" "v.mp4").2 (by decide)).1

/-! ## Claim C8 — the share page -/

/-- Appending more text on the right preserves "contains `og` as an infix". -/
theorem append_mid_extend {t og : String} (h : ∃ p s, t = p ++ og ++ s)
    (u : String) : ∃ p s, t ++ u = p ++ og ++ s := by
  obtain ⟨p, s, rfl⟩ := h
  exact ⟨p, s ++ u, by rw [String.append_assoc, String.append_assoc]⟩

/-- C8: the share page responds 404 exactly when the referenced asset is
missing from disk at render time; when the asset exists the rendered HTML
contains the `og:video` meta tag whose content is the asset's direct URL
`baseUrl/uploads/partitionKey/filename`. -/
theorem share_page_404_iff_missing (fs : FS) (req : Request)
    (userEmail filename : String) :
    ((handleSharePage fs req userEmail filename).1 = 404 ↔
      fileExists fs userEmail filename = false) ∧
    (fileExists fs userEmail filename = true →
      ∃ p s, (handleSharePage fs req userEmail filename).2 =
        p ++ ogVideoTag (directVideoUrl (getBaseUrl req) userEmail filename)
          ++ s) := by
  by_cases h : fileExists fs userEmail filename = true
  · refine ⟨by simp [handleSharePage, h], fun _ => ?_⟩
    simp only [handleSharePage, h, if_true]
    simp only [sharePageHtml]
    iterate 17 apply append_mid_extend
    exact ⟨_, "", (String.append_empty _).symm⟩
  · have h' : fileExists fs userEmail filename = false := by simpa using h
    exact ⟨by simp [handleSharePage, h'], fun htrue => absurd htrue h⟩

/-- C8 witness: with `v.mp4` present in alice's partition the page is
rendered (status 200, hence not 404) and carries the `og:video` tag with
the direct URL; with an empty tree the handler answers 404. -/
theorem share_page_404_iff_missing_witness :
    ∃ p s, (handleSharePage [("alice_example_com", [⟨"v.mp4", 10, 5⟩])]
        ⟨none, "http", "example.com", false⟩ "alice_example_com" "v.mp4").2 =
      p ++ ogVideoTag (directVideoUrl
        (getBaseUrl ⟨none, "http", "example.com", false⟩)
        "alice_example_com" "v.mp4") ++ s :=
  (share_page_404_iff_missing [("alice_example_com", [⟨"v.mp4", 10, 5⟩])]
    ⟨none, "http", "example.com", false⟩ "alice_example_com" "v.mp4").2
    (by decide)

/-! ## Claim C10 — lazy creation of the partition directory -/

theorem dirExists_removeFile (key fn : String) (fs : FS) (k : String) :
    dirExists (removeFile key fn fs) k = dirExists fs k := by
  unfold dirExists removeFile
  rw [List.any_map]
  congr 1
  funext p
  by_cases hp : p.1 == key <;> simp [hp, Function.comp]

theorem dirExists_writeFile (key : String) (a : Asset) (fs : FS) (k : String) :
    dirExists (writeFile key a fs) k = dirExists fs k := by
  unfold dirExists writeFile
  rw [List.any_map]
  congr 1
  funext p
  by_cases hp : p.1 == key <;> simp [hp, Function.comp]

theorem partFiles_eq_nil_of_not_dirExists (fs : FS) (k : String)
    (h : dirExists fs k = false) : partFiles fs k = [] := by
  unfold dirExists at h
  unfold partFiles
  rw [List.find?_eq_none.mpr]
  intro p hp
  simp only [List.any_eq_false] at h
  exact h p hp

/-- C10, counterexample: the claim says *every* authenticated operation
first ensures the caller's partition directory.  The upload pipeline only
reaches `getUserDirectory` from the storage engine's `destination`
callback, which runs after `videoFileFilter` admits the file — so an upload
rejected by validation answers 400 and leaves the partition absent. -/
theorem missing_partition_after_rejected_upload :
    handleUpload []
        ⟨"alice@example.com", some ⟨"notes.txt", "text/plain", 4⟩,
          ⟨2025, 6, 15, 10, 30, 45, 123⟩, 0⟩ = (400, []) ∧
    dirExists [] (safeEmail "alice@example.com") = false := by
  decide

/-- C10, amended: catalog reads and deletes always ensure the caller's
partition directory first — a fresh principal gets an empty listing, a
delete for it answers 404, and never a missing-partition error — and an
upload whose file passes the type filter ensures the directory too; only an
upload rejected by validation (or carrying no file) leaves the partition
uncreated. -/
theorem partition_dir_ensured (fs : FS) (email filename : String)
    (req : Request) (file : UploadFile) (d : DateTime) (ms : Nat) :
    dirExists (handleListVideos fs email req).2.1 (safeEmail email) = true ∧
    dirExists (handleDeleteVideo fs email filename).2 (safeEmail email) = true ∧
    (videoFileFilter file = true →
      dirExists (handleUpload fs ⟨email, some file, d, ms⟩).2
        (safeEmail email) = true) ∧
    (dirExists fs (safeEmail email) = false →
      (handleListVideos fs email req).2.2 = [] ∧
      (handleDeleteVideo fs email filename).1 = 404) := by
  refine ⟨?_, ?_, ?_, ?_⟩
  · simp only [handleListVideos]
    exact dirExists_ensureDir_self _ _
  · by_cases hc : fileExists (ensureDir (safeEmail email) fs)
        (safeEmail email) filename = true
    · simp [handleDeleteVideo, hc, dirExists_removeFile,
        dirExists_ensureDir_self]
    · rw [Bool.not_eq_true] at hc
      simp [handleDeleteVideo, hc, dirExists_ensureDir_self]
  · intro hfilt
    by_cases hsz : file.size > maxFileSize
    · simp [handleUpload, hfilt, hsz, dirExists_ensureDir_self]
    · simp [handleUpload, hfilt, hsz, dirExists_writeFile,
        dirExists_ensureDir_self]
  · intro hmiss
    have hnil : partFiles fs (safeEmail email) = [] :=
      partFiles_eq_nil_of_not_dirExists fs _ hmiss
    constructor
    · simp only [handleListVideos, catalogList]
      rw [partFiles_ensureDir, hnil]
      simp
    · have hfe : fileExists (ensureDir (safeEmail email) fs)
          (safeEmail email) filename = false := by
        unfold fileExists
        rw [partFiles_ensureDir, hnil]
        rfl
      simp [handleDeleteVideo, hfe]

/-- C10 witness: on an empty uploads tree, the catalog read answers the
empty list, the delete answers 404, and an admitted upload creates alice's
partition. -/
theorem partition_dir_ensured_witness :
    (handleListVideos [] "alice@example.com"
        ⟨none, "http", "example.com", false⟩).2.2 = [] ∧
    (handleDeleteVideo [] "alice@example.com" "v.mp4").1 = 404 ∧
    dirExists (handleUpload []
        ⟨"alice@example.com", some ⟨"clip.mp4", "video/mp4", 10⟩,
          ⟨2025, 6, 15, 10, 30, 45, 123⟩, 0⟩).2
      (safeEmail "alice@example.com") = true := by
  have h := partition_dir_ensured [] "alice@example.com" "v.mp4"
    ⟨none, "http", "example.com", false⟩ ⟨"clip.mp4", "video/mp4", 10⟩
    ⟨2025, 6, 15, 10, 30, 45, 123⟩ 0
  have h4 := h.2.2.2 (by decide)
  exact ⟨h4.1, h4.2, h.2.2.1 (by decide)⟩

/-! ## Claim C6 — extensions of stored assets

Structural facts about `extname` needed to track the extension of the
generated destination filename back to the uploaded original name. -/

/-- A dot-free character list has no extension. -/
theorem extnameRev_no_dot (cs : List Char) (acc : List Char)
    (h : ∀ c ∈ cs, c ≠ '.') : extnameRev cs acc = "" := by
  induction cs generalizing acc with
  | nil => rfl
  | cons c rest ih =>
    unfold extnameRev
    rw [if_neg (h c (List.mem_cons_self c rest))]
    exact ih _ (fun c' hc' => h c' (List.mem_cons_of_mem c hc'))

/-- Walking `l ++ '.' :: rest` with `l` dot-free and `rest` nonempty finds
the dot and returns it with the accumulated characters. -/
theorem extnameRev_found (l : List Char) (rest acc : List Char)
    (hl : ∀ c ∈ l, c ≠ '.') (hrest : rest ≠ []) :
    extnameRev (l ++ '.' :: rest) acc =
      String.mk ('.' :: (l.reverse ++ acc)) := by
  induction l generalizing acc with
  | nil =>
    rw [List.nil_append]
    simp only [extnameRev, if_true]
    rw [if_neg (by simpa [List.isEmpty_iff] using hrest)]
    simp
  | cons c l ih =>
    rw [List.cons_append]
    simp only [extnameRev]
    rw [if_neg (hl c (List.mem_cons_self c l))]
    rw [ih _ (fun c' hc' => hl c' (List.mem_cons_of_mem c hc'))]
    simp

/-- The shape of any extension: empty, or a dot followed by a dot-free
tail. -/
theorem extnameRev_shape (cs : List Char) (acc : List Char)
    (hacc : ∀ c ∈ acc, c ≠ '.') :
    extnameRev cs acc = "" ∨
      ∃ ds, (extnameRev cs acc).data = '.' :: ds ∧ ∀ c ∈ ds, c ≠ '.' := by
  induction cs generalizing acc with
  | nil => exact Or.inl rfl
  | cons c rest ih =>
    unfold extnameRev
    by_cases hc : c = '.'
    · rw [if_pos hc]
      by_cases hrest : rest.isEmpty
      · rw [if_pos hrest]
        exact Or.inl rfl
      · rw [if_neg hrest]
        exact Or.inr ⟨acc, rfl, hacc⟩
    · rw [if_neg hc]
      refine ih _ (fun c' hc' => ?_)
      rcases List.mem_cons.mp hc' with rfl | hmem
      · exact hc
      · exact hacc _ hmem

theorem extname_shape (s : String) :
    extname s = "" ∨
      ∃ ds, (extname s).data = '.' :: ds ∧ ∀ c ∈ ds, c ≠ '.' :=
  extnameRev_shape _ [] (by simp)

/-- The `[:.-] → _` substitution never produces a dot. -/
theorem replChar_ne_dot (c : Char) : replChar c ≠ '.' := by
  unfold replChar
  split
  · decide
  · rename_i h
    simp only [Bool.or_eq_true, beq_iff_eq, decide_eq_true_eq, not_or] at h
    exact h.1.2

/-- Appending an extension-shaped string to a nonempty dot-free basename
gives exactly that extension back. -/
theorem extname_append (pre e : String) (hne : pre.data ≠ [])
    (hdot : ∀ c ∈ pre.data, c ≠ '.')
    (he : e = "" ∨ ∃ ds, e.data = '.' :: ds ∧ ∀ c ∈ ds, c ≠ '.') :
    extname (pre ++ e) = e := by
  unfold extname
  rw [String.data_append, List.reverse_append]
  rcases he with rfl | ⟨ds, hds, hdsdot⟩
  · show extnameRev (List.reverse [] ++ pre.data.reverse) [] = ""
    rw [List.reverse_nil, List.nil_append]
    exact extnameRev_no_dot _ [] (fun c hc =>
      hdot c (List.mem_reverse.mp hc))
  · rw [hds]
    rw [List.reverse_cons]
    rw [List.append_assoc, List.singleton_append]
    rw [extnameRev_found ds.reverse _ []
      (fun c hc => hdsdot c (List.mem_reverse.mp hc))
      (fun habs => hne (by simpa using congrArg List.reverse habs))]
    rw [List.reverse_reverse, List.append_nil]
    exact (String.ext hds.symm : String.mk ('.' :: ds) = e)

/-- The sanitized ISO timestamp is nonempty and dot-free, so the stored
filename's extension is exactly the original filename's extension. -/
theorem extname_storageFilename (d : DateTime) (orig : String) :
    extname (storageFilename d orig) = extname orig := by
  unfold storageFilename sanitizeTimestamp toISOString
  refine extname_append _ _ ?_ ?_ (extname_shape orig)
  · rw [data_mk]
    intro habs
    have := congrArg List.length habs
    rw [List.length_map, isoChars_length] at this
    simp at this
  · rw [data_mk]
    intro c hc
    obtain ⟨x, _, rfl⟩ := List.mem_map.mp hc
    exact replChar_ne_dot x

/-- Lowercasing a character yields a dot only for the dot itself. -/
theorem jsLowerChar_eq_dot {c : Char} (h : jsLowerChar c = '.') : c = '.' := by
  unfold jsLowerChar at h
  split at h
  all_goals first
  | exact absurd h (by decide)
  | exact h

/-- `extname` commutes with JS lowercasing. -/
theorem extnameRev_jsLower (cs : List Char) (acc : List Char) :
    extnameRev (cs.map jsLowerChar) (acc.map jsLowerChar) =
      jsToLower (extnameRev cs acc) := by
  induction cs generalizing acc with
  | nil => rfl
  | cons c rest ih =>
    rw [List.map_cons]
    simp only [extnameRev]
    by_cases hc : c = '.'
    · subst hc
      rw [(by decide : jsLowerChar '.' = '.')]
      rw [if_pos rfl, if_pos rfl]
      by_cases hrest : rest.isEmpty
      · have hrm : (List.map jsLowerChar rest).isEmpty = true := by
          cases rest
          · rfl
          · simp at hrest
        rw [if_pos hrm, if_pos hrest]
        rfl
      · have hrm : (List.map jsLowerChar rest).isEmpty = false := by
          cases rest
          · simp at hrest
          · rfl
        rw [if_neg (by simp [hrm]), if_neg hrest]
        apply String.ext
        simp only [jsToLower, data_mk, List.map_cons]
        rw [(by decide : jsLowerChar '.' = '.')]
    · rw [if_neg (fun habs => hc (jsLowerChar_eq_dot habs)), if_neg hc]
      exact List.map_cons jsLowerChar c acc ▸ ih (c :: acc)

theorem extname_jsToLower (s : String) :
    extname (jsToLower s) = jsToLower (extname s) := by
  unfold extname jsToLower
  rw [data_mk, ← List.map_reverse]
  exact (List.map_nil (f := jsLowerChar)) ▸
    extnameRev_jsLower s.data.reverse []

/-- An admitted extension-valid upload stores a filename that passes the
catalog's extension test. -/
theorem catalogExtOk_storageFilename (d : DateTime) (file : UploadFile)
    (h : hasValidExtension file = true) :
    catalogExtOk (storageFilename d file.originalname) = true := by
  unfold catalogExtOk
  rw [extname_storageFilename]
  unfold hasValidExtension at h
  rw [extname_jsToLower] at h
  exact h

/-- C6, counterexample: the claim asserts the extension invariant for
*every* successful upload, but the filter's MIME-type disjunct can admit a
file whose extension is arbitrary.  `clip.xyz` declared as `video/mp4` is
uploaded successfully, and the stored asset's extension `.xyz` is not in
the allow-list (so the catalog will silently hide the asset). -/
theorem upload_stores_non_allowlisted_extension :
    handleUpload []
        ⟨"alice@example.com", some ⟨"clip.xyz", "video/mp4", 10⟩,
          ⟨2025, 6, 15, 10, 30, 45, 123⟩, 99⟩ =
      (200, [("alice_example_com",
        [⟨"2025_06_15T10_30_45_123Z.xyz", 99, 10⟩])]) ∧
    allowedExtensions.contains
      (extname "2025_06_15T10_30_45_123Z.xyz") = false ∧
    catalogExtOk "2025_06_15T10_30_45_123Z.xyz" = false := by
  decide

/-- The uploads-tree states reachable from an empty tree when every
uploaded file is admitted with an allow-listed extension (i.e. its upload
passed the *extension* check, not merely the MIME-type disjunct). -/
inductive ReachExt : FS → Prop where
  | start : ReachExt []
  | upload (fs : FS) (req : UploadRequest) (h : ReachExt fs)
      (hext : ∀ f, req.file = some f → hasValidExtension f = true) :
      ReachExt (handleUpload fs req).2
  | listOp (fs : FS) (email : String) (req : Request) (h : ReachExt fs) :
      ReachExt (handleListVideos fs email req).2.1
  | deleteOp (fs : FS) (email filename : String) (h : ReachExt fs) :
      ReachExt (handleDeleteVideo fs email filename).2
  | sweepOp (fs : FS) (nowMs : Nat) (h : ReachExt fs) :
      ReachExt (sweep nowMs fs)

/-- C6, amended: in every state reachable through uploads that passed the
*extension* check (plus catalog reads, deletes and sweeps), every asset of
every partition has an allow-listed (lowercased) extension.  An upload
admitted solely by its content type may store any extension — see the
counterexample. -/
theorem video_extension_invariant (fs : FS) (hreach : ReachExt fs) :
    ∀ k a, a ∈ partFiles fs k → catalogExtOk a.filename = true := by
  induction hreach with
  | start =>
    intro k a ha
    simp [partFiles_nil] at ha
  | upload fs req h hext ih =>
    obtain ⟨email, file?, d, ms⟩ := req
    intro k a ha
    match file? with
    | none => exact ih k a ha
    | some file =>
      by_cases hfilt : videoFileFilter file = true
      · by_cases hsz : file.size > maxFileSize
        · simp only [handleUpload, hfilt, if_true, hsz] at ha
          rw [partFiles_ensureDir] at ha
          exact ih k a ha
        · simp only [handleUpload, hfilt, if_true] at ha
          rw [if_neg (by simpa using hsz)] at ha
          rcases mem_partFiles_writeFile _ _ _ _ _ ha with rfl | hmem
          · exact catalogExtOk_storageFilename d file (hext file rfl)
          · rw [partFiles_ensureDir] at hmem
            exact ih k a hmem
      · simp only [handleUpload, hfilt] at ha
        rw [if_neg (by decide : ¬(false = true))] at ha
        exact ih k a ha
  | listOp fs email req h ih =>
    intro k a ha
    simp only [handleListVideos] at ha
    rw [partFiles_ensureDir] at ha
    exact ih k a ha
  | deleteOp fs email filename h ih =>
    intro k a ha
    by_cases hc : fileExists (ensureDir (safeEmail email) fs)
        (safeEmail email) filename = true
    · simp only [handleDeleteVideo, hc, if_true] at ha
      have := mem_partFiles_removeFile _ _ _ _ _ ha
      rw [partFiles_ensureDir] at this
      exact ih k a this
    · simp only [handleDeleteVideo] at ha
      rw [if_neg hc] at ha
      rw [partFiles_ensureDir] at ha
      exact ih k a ha
  | sweepOp fs nowMs h ih =>
    intro k a ha
    rw [partFiles_sweep] at ha
    exact ih k a (List.mem_filter.mp ha).1

/-- C6 witness: after a genuine `clip.mp4` upload into an empty tree, the
stored asset passes the catalog's extension test. -/
theorem video_extension_invariant_witness :
    catalogExtOk
      (Asset.filename ⟨"2025_06_15T10_30_45_123Z.mp4", 99, 10⟩) = true := by
  have hr : ReachExt (handleUpload []
      ⟨"alice@example.com", some ⟨"clip.mp4", "video/mp4", 10⟩,
        ⟨2025, 6, 15, 10, 30, 45, 123⟩, 99⟩).2 :=
    ReachExt.upload [] _ ReachExt.start
      (fun f hf => by cases hf; decide)
  exact video_extension_invariant _ hr "alice_example_com"
    ⟨"2025_06_15T10_30_45_123Z.mp4", 99, 10⟩ (by decide)

end NitroShare
